import Mathlib

/-!
# Verification of the kint endpoint framework

A shallow embedding of the two core subsystems of the kint repository:

* the middleware composition engine (`src/core/Kint.ts`): the persistent
  `Kint` builder, `Kint.new`, `addMiddleware`, `extendConfig`, `setConfig`;
* the route tree builder and dispatcher (`src/RouteTreeNode.ts`):
  directory traversal, URL-parameter validation, and the per-node request
  handler that parses body, query and URL parameters before delegating to
  the endpoint.

JavaScript values that flow through requests, contexts and configuration
slots are modelled by the scalar type `Val`; objects keyed by strings are
modelled as association lists.  Mutation of the per-request context object
is modelled by threading an explicit state (`MwSt`) through the handlers;
the state also carries an observation log so that execution order is
provable.  TypeScript's type-level bookkeeping (the growing `Context` and
`Config` type parameters) is erased: all handlers work over the untyped
association-list representation, exactly as the compiled JavaScript does.
-/

/-- A JavaScript-like scalar value (request fields, context and config slots). -/
inductive Val where
  | undef
  | null
  | bool (b : Bool)
  | num (n : Int)
  | str (s : String)
deriving DecidableEq, Repr

/-- JavaScript truthiness of a `Val`, as tested by `if (extension)` in
`Kint.addMiddleware`: `undefined`, `null`, `false`, `0` and the empty
string are falsy. -/
def truthy : Val → Bool
  | Val.undef => false
  | Val.null => false
  | Val.bool b => b
  | Val.num n => n != 0
  | Val.str s => s != ""

/-- An object keyed by middleware name (the request context / config objects). -/
abbrev ValMap := List (String × Val)

/-- Property read `obj[k]` on a JavaScript object: the value stored under the
first occurrence of `k`, `undefined` when absent. -/
def lookupVal : ValMap → String → Val
  | [], _ => Val.undef
  | (k2, v) :: rest, k => if k2 == k then v else lookupVal rest k

/-- Property write `obj[k] = v` on a JavaScript object: replaces the value at
an existing key in place, appends the key otherwise. -/
def setVal (k : String) (v : Val) : ValMap → ValMap
  | [] => [(k, v)]
  | (k2, w) :: rest => if k2 == k then (k2, v) :: rest else (k2, w) :: setVal k v rest

/-- The express-level request: `req.body`, `req.query` and `req.params`. -/
structure KReq where
  body : Val
  query : Val
  params : Val
deriving DecidableEq, Repr

/-- The per-request mutable state: the `RequestContext` object (mutated by the
`next` continuations of `Kint.addMiddleware`) plus an observation log that
records execution order. -/
structure MwSt where
  ctx : ValMap
  log : List String
deriving DecidableEq, Repr

/-- A computation that may read and mutate the per-request state. -/
abbrev MwM (α : Type) := MwSt → α × MwSt

/-- `ConfigurableHandler` of `src/core/models/ConfigurableHandler.ts` as used
by `Kint.ts`: `(request, context, config) => response`, with the mutable
context object threaded through the state. -/
abbrev ConfigurableHandler := KReq → ValMap → MwM Val

/-- `Middleware` of `src/core/models/Middleware.ts`: a name together with a
handler `(request, next, config) => response`.  The `next` continuation
optionally takes a context extension. -/
structure Middleware where
  name : String
  handler : KReq → (Option Val → MwM Val) → Val → MwM Val

/-- The `Kint` class of `src/core/Kint.ts`: a default configuration and a
handler builder that wraps an innermost handler with every middleware added
so far.  The three TypeScript type parameters are erased. -/
structure Kint where
  defaultConfig : ValMap
  handlerBuilder : ConfigurableHandler → ConfigurableHandler

/-- `Kint.new` (`Kint.ts` lines 36–54): empty default config and the identity
handler builder. -/
def Kint.new : Kint :=
  { defaultConfig := [],
    handlerBuilder := fun innerHandler => innerHandler }

/-- The `if (extension) context[middleware.name] = extension` step inside the
`next` closure of `Kint.addMiddleware` (lines 130–133): the context is
written only when `next` was called with a truthy extension value. -/
def applyExtension (name : String) (ext : Option Val) (ctx : ValMap) : ValMap :=
  match ext with
  | some v => if truthy v then setVal name v ctx else ctx
  | none => ctx

/-- The `next` closure of `Kint.addMiddleware` (lines 130–135): optionally
extends the context object, then invokes the previous chain's compiled
wrapping of the innermost handler. -/
def nextFn (name : String) (wrappedInner : ConfigurableHandler)
    (req : KReq) (cfg : ValMap) : Option Val → MwM Val :=
  fun ext st => wrappedInner req cfg { st with ctx := applyExtension name ext st.ctx }

/-- `Kint.addMiddleware` (`Kint.ts` lines 90–147): a new `Kint` whose handler
builder first lets the previous builder wrap the innermost handler, then
wraps the result in the new middleware's handler, handing it the `next`
closure and its own named configuration slot `config[middleware.name]`. -/
def Kint.addMiddleware (k : Kint) (m : Middleware) : Kint :=
  { defaultConfig := k.defaultConfig,
    handlerBuilder := fun innermostHandler =>
      fun req cfg =>
        m.handler req
          (nextFn m.name (k.handlerBuilder innermostHandler) req cfg)
          (lookupVal cfg m.name) }

/-- Modelled from the spec: `extendObject` (src/utils/extendObject.ts is not
under src/) is a spread-style merge producing "a merged default
configuration (immutable update)", extension entries winning. -/
def extendObject (base ext : ValMap) : ValMap :=
  base.filter (fun p => !(ext.any (fun q => q.1 == p.1))) ++ ext

/-- `Kint.extendConfig` (`Kint.ts` lines 76–83): a new `Kint` with the merged
default config and the same handler builder. -/
def Kint.extendConfig (k : Kint) (ext : ValMap) : Kint :=
  { defaultConfig := extendObject k.defaultConfig ext,
    handlerBuilder := k.handlerBuilder }

/-- Modelled from the spec: `setConfig` "accepts either a literal override or
a function of the current default config" (src/utils/getFromFnOrValue.ts is
not under src/). -/
inductive MaybeFnConfig where
  | value (v : ValMap)
  | fn (f : ValMap → ValMap)

/-- Modelled from the spec: `getFromFnOrValue` resolves a literal-or-function
argument against the current value (src/utils/getFromFnOrValue.ts is not
under src/). -/
def getFromFnOrValue : MaybeFnConfig → ValMap → ValMap
  | MaybeFnConfig.value v, _ => v
  | MaybeFnConfig.fn f, c => f c

/-- `Kint.setConfig` (`Kint.ts` lines 154–163): a new `Kint` with the resolved
config and the same handler builder. -/
def Kint.setConfig (k : Kint) (newConfig : MaybeFnConfig) : Kint :=
  { defaultConfig := getFromFnOrValue newConfig k.defaultConfig,
    handlerBuilder := k.handlerBuilder }

/-- A chain together with the set of middleware names already composed into
it.  The name set lives in the TypeScript types (the accumulated `Config`
record); it is made explicit here to express the uniqueness contract. -/
structure KintNamed where
  names : List String
  chain : Kint

/-- Modelled from the spec: the `NotKeyOf<Name, Config>` constraint of
`Kint.addMiddleware` (src/utils/types/NotKeyOf.ts is not under src/)
rejects, at chain-construction time, any middleware whose name is already a
key of the accumulated config; "a reimplementation lacking static
enforcement must raise a configuration error immediately upon detecting a
name collision when composing". -/
def addMiddlewareChecked (k : KintNamed) (m : Middleware) : Except String KintNamed :=
  if k.names.contains m.name then
    Except.error ("Middleware name collision: " ++ m.name)
  else
    Except.ok { names := m.name :: k.names, chain := k.chain.addMiddleware m }

/-- A middleware that records its name in the observation log and then calls
`next` with no context extension; used to observe execution order. -/
def logMw (name : String) : Middleware :=
  { name := name,
    handler := fun _req next _slot st => next none { st with log := st.log ++ [name] } }

/-- An innermost handler that records a tag in the observation log. -/
def logHandler (tag : String) : ConfigurableHandler :=
  fun _req _cfg st => (Val.str tag, { st with log := st.log ++ [tag] })

/-- `lookupVal` after `setVal` at a different key is unchanged. -/
theorem lookupVal_setVal_ne (name k2 : String) (v : Val) (l : ValMap)
    (h : k2 ≠ name) : lookupVal (setVal name v l) k2 = lookupVal l k2 := by
  induction l with
  | nil =>
      simp [setVal, lookupVal, beq_iff_eq, Ne.symm h]
  | cons hd tl ih =>
      obtain ⟨k3, w⟩ := hd
      by_cases h3 : k3 = name
      · subst h3
        simp [setVal, lookupVal, beq_iff_eq, Ne.symm h]
      · simp [setVal, lookupVal, beq_iff_eq, h3]
        by_cases h4 : k3 = k2
        · simp [h4]
        · simp [h4, ih]

/-- Claim C9: the chain produced by `Kint.new`, with no middleware added,
compiles any innermost handler to exactly that handler: invoking the
compiled handler on any request, config and state (context) gives the same
result as invoking the innermost handler directly. -/
theorem fresh_chain_compiles_to_identity (h : ConfigurableHandler)
    (req : KReq) (cfg : ValMap) (st : MwSt) :
    Kint.new.handlerBuilder h req cfg st = h req cfg st := rfl

/-- Claim C1: in a chain built by adding middleware M1, then M2, then M3 to a
fresh `Kint`, the handler compiled against an innermost handler H executes
M3's handler first, then M2's, then M1's, and finally H — the reverse of
declaration order, observed through the execution log. -/
theorem middleware_execution_order_lifo (n1 n2 n3 tag : String)
    (req : KReq) (cfg : ValMap) (st : MwSt) :
    (((((Kint.new.addMiddleware (logMw n1)).addMiddleware (logMw n2)).addMiddleware
        (logMw n3)).handlerBuilder (logHandler tag)) req cfg st).2.log
      = st.log ++ [n3, n2, n1, tag] := by
  simp [Kint.new, Kint.addMiddleware, logMw, logHandler, nextFn, applyExtension]

/-- Claim C7: `addMiddleware`, `extendConfig` and `setConfig` are pure
derivations: each returns a new chain, and every component of the chain
that the operation does not explicitly replace is passed on unchanged from
the receiver, so one chain can serve as a shared base for several derived
chains. -/
theorem chain_operations_preserve_receiver (k : Kint) (m : Middleware)
    (ext : ValMap) (newConfig : MaybeFnConfig) :
    (k.addMiddleware m).defaultConfig = k.defaultConfig
      ∧ (k.extendConfig ext).handlerBuilder = k.handlerBuilder
      ∧ (k.setConfig newConfig).handlerBuilder = k.handlerBuilder :=
  ⟨rfl, rfl, rfl⟩

/-- Claim C5: composing two middleware with the same name into one chain is
rejected at chain-construction time with a configuration error, before any
request is served; a fresh name is accepted. -/
theorem middleware_name_collision_rejected (k : KintNamed) (m : Middleware) :
    (k.names.contains m.name = true →
        addMiddlewareChecked k m = Except.error ("Middleware name collision: " ++ m.name))
      ∧ (k.names.contains m.name = false →
        addMiddlewareChecked k m
          = Except.ok { names := m.name :: k.names, chain := k.chain.addMiddleware m }) := by
  constructor
  · intro h
    have h2 : m.name ∈ k.names := by simpa using h
    simp [addMiddlewareChecked, h2]
  · intro h
    have h2 : m.name ∉ k.names := by simpa using h
    simp [addMiddlewareChecked, h2]

/-- A concrete middleware used by witnesses. -/
def mwAuth : Middleware := logMw "auth"

theorem middleware_name_collision_rejected_witness :
    ((["auth"].contains "auth") = true)
      ∧ addMiddlewareChecked { names := ["auth"], chain := Kint.new } mwAuth
          = Except.error ("Middleware name collision: " ++ "auth") :=
  ⟨by decide,
    (middleware_name_collision_rejected { names := ["auth"], chain := Kint.new } mwAuth).1
      (by decide)⟩

/-- Claim C10: the `next` continuation a middleware receives writes the
middleware's named context slot only when called with a truthy extension:
with no argument or a falsy extension the inner handler runs with the
context unchanged, with a truthy extension exactly the middleware's own
slot is written, and in every case all other slots are untouched. -/
theorem next_writes_only_own_slot (name : String) (w : ConfigurableHandler)
    (req : KReq) (cfg : ValMap) (st : MwSt) :
    (nextFn name w req cfg none st = w req cfg st)
      ∧ (∀ v : Val, truthy v = false → nextFn name w req cfg (some v) st = w req cfg st)
      ∧ (∀ v : Val, truthy v = true →
          nextFn name w req cfg (some v) st
            = w req cfg { st with ctx := setVal name v st.ctx })
      ∧ (∀ (ext : Option Val) (k2 : String), k2 ≠ name →
          lookupVal (applyExtension name ext st.ctx) k2 = lookupVal st.ctx k2) := by
  refine ⟨rfl, ?_, ?_, ?_⟩
  · intro v hv
    simp [nextFn, applyExtension, hv]
  · intro v hv
    simp [nextFn, applyExtension, hv]
  · intro ext k2 hk
    match ext with
    | none => rfl
    | some v =>
        by_cases hv : truthy v
        · simp [applyExtension, hv, lookupVal_setVal_ne name k2 v st.ctx hk]
        · simp [applyExtension, hv]

/-- A concrete request used by witnesses. -/
def kreq0 : KReq := { body := Val.null, query := Val.null, params := Val.null }

/-- A concrete middleware state used by witnesses. -/
def st0 : MwSt := { ctx := [("a", Val.num 1)], log := [] }

theorem next_writes_only_own_slot_witness :
    (truthy (Val.num 0) = false)
      ∧ nextFn "m" (logHandler "h") kreq0 [] (some (Val.num 0)) st0
          = logHandler "h" kreq0 [] st0
      ∧ (truthy (Val.num 2) = true)
      ∧ nextFn "m" (logHandler "h") kreq0 [] (some (Val.num 2)) st0
          = logHandler "h" kreq0 [] { st0 with ctx := setVal "m" (Val.num 2) st0.ctx }
      ∧ lookupVal (applyExtension "m" (some (Val.num 2)) st0.ctx) "a" = lookupVal st0.ctx "a" :=
  ⟨by decide,
    (next_writes_only_own_slot "m" (logHandler "h") kreq0 [] st0).2.1 (Val.num 0) (by decide),
    by decide,
    (next_writes_only_own_slot "m" (logHandler "h") kreq0 [] st0).2.2.1 (Val.num 2) (by decide),
    (next_writes_only_own_slot "m" (logHandler "h") kreq0 [] st0).2.2.2 (some (Val.num 2)) "a"
      (by decide)⟩

/-- Outcome of parsing a value against a schema, as produced by the schema
capability: success with the parsed (possibly coerced) data, or failure
with a message. -/
inductive ParseResult where
  | success (data : Val)
  | failure (message : String)
deriving DecidableEq, Repr

/-- A schema as the two capabilities the framework consumes: a parse
function and (for parameter-shaped schemas) the set of declared keys. -/
structure Schema where
  keys : List String
  parse : Val → ParseResult

/-- The optional per-field schemas of an endpoint definition
(`requestBody`, `queryParams`, `urlParams`). -/
structure EndpointDefinition where
  requestBody : Option Schema
  queryParams : Option Schema
  urlParams : Option Schema

/-- The `Endpoint` artifact bound to a route tree node: the `builtByKint`
marker, the endpoint definition, and the handler `(req, res, context)`,
modelled as a function from the (rewritten) request and the shared context
to the response it produces. -/
structure Endpoint where
  builtByKint : Bool
  endpointDefinition : EndpointDefinition
  handler : KReq → Val → Val

/-- Modelled from the spec: `parseSchemaDefinition`
(src/parseSchemaDefinition.ts is not under src/) is the schema capability
`parse(schema, value)`; the `?? {}` default for an absent schema "accepts
anything, pass through unparsed". -/
def parseField : Option Schema → Val → ParseResult
  | none, v => ParseResult.success v
  | some s, v => s.parse v

/-- The observable outcome of the per-node express handler: the error
response sent (if any), the endpoint handler's response (if it ran), and
an event trace recording, in order, which fields were parsed and whether
the endpoint handler and the `next()` continuation ran. -/
structure NodeResult where
  response : Option (Nat × String)
  handlerResult : Option Val
  events : List String
deriving DecidableEq, Repr

/-- `RouteTreeNode.createHandlerFromEndpoint` (`RouteTreeNode.ts` lines
188–229): parse the body, then the query, then the URL parameters; the
first failure sends a 400 carrying the failure message and stops; on
success of all three each request field is replaced by its parsed value,
the endpoint handler runs on the rewritten request, and `next()` is called
after it completes. -/
def createHandlerFromEndpoint (e : Endpoint) (context : Val) (req : KReq) : NodeResult :=
  match parseField e.endpointDefinition.requestBody req.body with
  | ParseResult.failure msg =>
      { response := some (400, "Bad request: " ++ msg),
        handlerResult := none,
        events := ["parse body"] }
  | ParseResult.success bodyData =>
      match parseField e.endpointDefinition.queryParams req.query with
      | ParseResult.failure msg =>
          { response := some (400, "Bad request: " ++ msg),
            handlerResult := none,
            events := ["parse body", "parse query"] }
      | ParseResult.success queryData =>
          match parseField e.endpointDefinition.urlParams req.params with
          | ParseResult.failure msg =>
              { response := some (400, "Bad request: " ++ msg),
                handlerResult := none,
                events := ["parse body", "parse query", "parse urlParams"] }
          | ParseResult.success paramsData =>
              { response :=
                  none,
                handlerResult :=
                  some (e.handler { body := bodyData, query := queryData, params := paramsData } context),
                events :=
                  ["parse body", "parse query", "parse urlParams", "handler", "next"] }

/-- Claim C3: the per-node handler parses body, then query, then URL
parameters; the first field whose parse fails produces a 400 response
carrying the failure's message, no later field is parsed, and the endpoint
handler is never invoked. -/
theorem first_parse_failure_short_circuits (e : Endpoint) (context : Val) (req : KReq) :
    (∀ msg, parseField e.endpointDefinition.requestBody req.body = ParseResult.failure msg →
        createHandlerFromEndpoint e context req
          = { response := some (400, "Bad request: " ++ msg),
              handlerResult := none,
              events := ["parse body"] })
      ∧ (∀ b msg, parseField e.endpointDefinition.requestBody req.body = ParseResult.success b →
          parseField e.endpointDefinition.queryParams req.query = ParseResult.failure msg →
          createHandlerFromEndpoint e context req
            = { response := some (400, "Bad request: " ++ msg),
                handlerResult := none,
                events := ["parse body", "parse query"] })
      ∧ (∀ b q msg, parseField e.endpointDefinition.requestBody req.body = ParseResult.success b →
          parseField e.endpointDefinition.queryParams req.query = ParseResult.success q →
          parseField e.endpointDefinition.urlParams req.params = ParseResult.failure msg →
          createHandlerFromEndpoint e context req
            = { response := some (400, "Bad request: " ++ msg),
                handlerResult := none,
                events := ["parse body", "parse query", "parse urlParams"] }) := by
  refine ⟨?_, ?_, ?_⟩
  · intro msg hb
    simp [createHandlerFromEndpoint, hb]
  · intro b msg hb hq
    simp [createHandlerFromEndpoint, hb, hq]
  · intro b q msg hb hq hp
    simp [createHandlerFromEndpoint, hb, hq, hp]

/-- A schema that rejects every value with a fixed message. -/
def rejectSchema (msg : String) : Schema :=
  { keys := [], parse := fun _ => ParseResult.failure msg }

/-- A schema that accepts every value unchanged. -/
def acceptSchema : Schema :=
  { keys := [], parse := fun v => ParseResult.success v }

/-- A concrete endpoint whose query schema rejects; used by witnesses. -/
def epBadQuery : Endpoint :=
  { builtByKint := true,
    endpointDefinition :=
      { requestBody := some acceptSchema,
        queryParams := some (rejectSchema "query is malformed"),
        urlParams := none },
    handler := fun _req _ctx => Val.str "unreachable" }

theorem first_parse_failure_short_circuits_witness :
    (parseField epBadQuery.endpointDefinition.requestBody kreq0.body
        = ParseResult.success Val.null)
      ∧ (parseField epBadQuery.endpointDefinition.queryParams kreq0.query
          = ParseResult.failure "query is malformed")
      ∧ createHandlerFromEndpoint epBadQuery Val.undef kreq0
          = { response := some (400, "Bad request: " ++ "query is malformed"),
              handlerResult := none,
              events := ["parse body", "parse query"] } :=
  ⟨rfl, rfl,
    (first_parse_failure_short_circuits epBadQuery Val.undef kreq0).2.1
      Val.null "query is malformed" rfl rfl⟩

/-- Claim C4: when body, query and URL parameters all parse successfully, the
endpoint handler is invoked on the request with each of the three fields
replaced by its parsed value, the response is whatever the handler
produces, and the pipeline continuation `next()` is signalled only after
the handler has completed. -/
theorem parsed_request_reaches_endpoint (e : Endpoint) (context : Val) (req : KReq)
    (b q p : Val)
    (hb : parseField e.endpointDefinition.requestBody req.body = ParseResult.success b)
    (hq : parseField e.endpointDefinition.queryParams req.query = ParseResult.success q)
    (hp : parseField e.endpointDefinition.urlParams req.params = ParseResult.success p) :
    createHandlerFromEndpoint e context req
      = { response := none,
          handlerResult := some (e.handler { body := b, query := q, params := p } context),
          events := ["parse body", "parse query", "parse urlParams", "handler", "next"] } := by
  simp [createHandlerFromEndpoint, hb, hq, hp]

/-- A schema that coerces every value to a fixed string; used by witnesses to
show the handler sees the parsed value, not the raw one. -/
def coerceSchema (out : String) : Schema :=
  { keys := [], parse := fun _ => ParseResult.success (Val.str out) }

/-- A concrete endpoint whose three schemas all coerce; its handler echoes the
request body it received. -/
def epCoerce : Endpoint :=
  { builtByKint := true,
    endpointDefinition :=
      { requestBody := some (coerceSchema "parsed body"),
        queryParams := some (coerceSchema "parsed query"),
        urlParams := some (coerceSchema "parsed params") },
    handler := fun req _ctx => req.body }

theorem parsed_request_reaches_endpoint_witness :
    (parseField epCoerce.endpointDefinition.requestBody kreq0.body
        = ParseResult.success (Val.str "parsed body"))
      ∧ createHandlerFromEndpoint epCoerce Val.undef kreq0
          = { response := none,
              handlerResult :=
                some (epCoerce.handler
                  { body := Val.str "parsed body", query := Val.str "parsed query",
                    params := Val.str "parsed params" } Val.undef),
              events := ["parse body", "parse query", "parse urlParams", "handler", "next"] } :=
  ⟨rfl,
    parsed_request_reaches_endpoint epCoerce Val.undef kreq0
      (Val.str "parsed body") (Val.str "parsed query") (Val.str "parsed params")
      rfl rfl rfl⟩

/-- The five HTTP methods recognised by the route tree builder. -/
inductive Method where
  | GET
  | POST
  | PUT
  | PATCH
  | DELETE
deriving DecidableEq, Repr

/-- The method-file regular expression of `populateWithDirectoryContents`
(`RouteTreeNode.ts` line 61): a file is a method file exactly when its name
is one of the five verbs followed by `.ts` or `.js`. -/
def parseMethodFile (s : String) : Option Method :=
  if s == "GET.ts" || s == "GET.js" then some Method.GET
  else if s == "POST.ts" || s == "POST.js" then some Method.POST
  else if s == "PUT.ts" || s == "PUT.js" then some Method.PUT
  else if s == "PATCH.ts" || s == "PATCH.js" then some Method.PATCH
  else if s == "DELETE.ts" || s == "DELETE.js" then some Method.DELETE
  else none

/-- A word character of the URL-parameter directory pattern. -/
def isWordChar (c : Char) : Bool :=
  c.isAlphanum || c == '_'

/-- The URL-parameter directory pattern of `createSubRoute`
(`RouteTreeNode.ts` line 110): a directory named `[identifier]` denotes a
URL-parameter segment; the result is the unwrapped identifier. -/
def matchUrlParamDir (s : String) : Option String :=
  match s.data with
  | '[' :: rest =>
      if rest.getLast? == some ']' && !rest.dropLast.isEmpty && rest.dropLast.all isWordChar
      then some (String.mk rest.dropLast)
      else none
  | _ => none

/-- `path.join` as used on the relative paths of the traversal, where the
root-relative path starts as the normalised `./`. -/
def joinPath (a b : String) : String :=
  if a == "./" then b else a ++ "/" ++ b

/-- An in-memory directory tree: the injected module-loading capability is
modelled by storing, at each file, the default export the loader would
return for it. -/
inductive DirEntry where
  | dir (name : String) (contents : List DirEntry)
  | file (name : String) (exported : Endpoint)

/-- A `RouteTreeNode` (`RouteTreeNode.ts` lines 10–18): name, URL-parameter
flag, sub-routes in directory order, and the method-to-endpoint resource
mapping.  The parent back-reference is replaced by passing the ancestor
URL-parameter names down the traversal. -/
inductive RTNode where
  | mk (name : String) (isUrlParam : Bool) (subRoutes : List RTNode)
      (resource : List (Method × Endpoint))

/-- The `for (const urlParam of endpointDefinedUrlsParams)` check of
`populateWithDirectoryContents` (`RouteTreeNode.ts` lines 91–99): the first
declared key that is not among the in-scope URL-parameter names, if any. -/
def firstMissing (scope : List String) : List String → Option String
  | [] => none
  | k :: rest =>
      match scope.contains k with
      | true => firstMissing scope rest
      | false => some k

/-- `firstMissing` finds no key exactly when every declared key is in scope. -/
theorem firstMissing_isNone (scope keys : List String) :
    (firstMissing scope keys).isNone = keys.all (fun k => scope.contains k) := by
  induction keys with
  | nil => rfl
  | cons k rest ih =>
      cases h : scope.contains k with
      | true =>
          simp only [firstMissing, h, List.all_cons, Bool.true_and, ih]
      | false =>
          simp only [firstMissing, h, List.all_cons, Bool.false_and, Option.isNone_some]

/-- Regrouping of four conjuncts, used to split a combined success condition
into its marker part and its parameter part. -/
theorem bool_and_reassoc (a b c d : Bool) :
    (a && b && (c && d)) = ((a && c) && (b && d)) := by
  cases a <;> cases b <;> cases c <;> cases d <;> rfl

/-- What processing one directory entry contributes to the enclosing node. -/
inductive BuiltItem where
  | node (n : RTNode)
  | bind (m : Method) (ep : Endpoint)
  | skip

mutual
/-- One iteration of the `populateWithDirectoryContents` loop
(`RouteTreeNode.ts` lines 34–105) on a single directory entry.  `scope` is
`getAllUrlParams()` of the node being populated: the names of all
URL-parameter nodes from it up to the root (lines 162–176).  A
subdirectory becomes a sub-route (recursing with the extended scope when
it is a parameter directory); a method file must carry the `builtByKint`
marker (lines 75–79) and may only declare URL-parameter keys present in
`scope` (lines 81–100), the first missing key aborting the build. -/
def buildOne : List String → String → DirEntry → Except String BuiltItem
  | scope, relPath, DirEntry.dir dname contents =>
      match matchUrlParamDir dname with
      | some inner =>
          match buildEntries (inner :: scope) (joinPath relPath dname) contents with
          | Except.error msg => Except.error msg
          | Except.ok (subs, res) =>
              Except.ok (BuiltItem.node (RTNode.mk inner true subs res))
      | none =>
          match buildEntries scope (joinPath relPath dname) contents with
          | Except.error msg => Except.error msg
          | Except.ok (subs, res) =>
              Except.ok (BuiltItem.node (RTNode.mk dname false subs res))
  | scope, relPath, DirEntry.file fname ep =>
      match parseMethodFile fname with
      | none => Except.ok BuiltItem.skip
      | some m =>
          match ep.builtByKint with
          | false =>
              Except.error ("Endpoint at route " ++ joinPath relPath fname
                ++ " is not a Kint endpoint")
          | true =>
              match ep.endpointDefinition.urlParams with
              | none => Except.ok (BuiltItem.bind m ep)
              | some schema =>
                  match firstMissing scope schema.keys with
                  | some missing =>
                      Except.error ("Endpoint at /" ++ joinPath relPath fname
                        ++ " defines a URL parameter in it\'s schema (" ++ missing
                        ++ ") that does not exist in the route path.")
                  | none => Except.ok (BuiltItem.bind m ep)

/-- The `populateWithDirectoryContents` loop over a directory's entries, in
directory order, producing the sub-routes and the resource bindings of the
node being populated; any error aborts the whole traversal. -/
def buildEntries : List String → String → List DirEntry →
    Except String (List RTNode × List (Method × Endpoint))
  | _, _, [] => Except.ok ([], [])
  | scope, relPath, e :: rest =>
      match buildOne scope relPath e with
      | Except.error msg => Except.error msg
      | Except.ok item =>
          match buildEntries scope relPath rest with
          | Except.error msg => Except.error msg
          | Except.ok (subs, res) =>
              match item with
              | BuiltItem.node n => Except.ok (n :: subs, res)
              | BuiltItem.bind m ep => Except.ok (subs, (m, ep) :: res)
              | BuiltItem.skip => Except.ok (subs, res)
end

/-- `RouteTreeNode.fromDirectory` (`RouteTreeNode.ts` lines 120–128): create
the root node and populate it from the directory's contents; the
root-relative path starts at `./`. -/
def fromDirectory (entries : List DirEntry) : Except String RTNode :=
  match buildEntries [] "./" entries with
  | Except.error msg => Except.error msg
  | Except.ok (subs, res) => Except.ok (RTNode.mk "root" false subs res)

mutual
/-- Every method file reachable from this entry carries the `builtByKint`
marker. -/
def entryMarked : DirEntry → Bool
  | DirEntry.dir _ contents => entriesMarked contents
  | DirEntry.file fname ep =>
      match parseMethodFile fname with
      | none => true
      | some _ => ep.builtByKint

/-- `entryMarked` over a list of entries. -/
def entriesMarked : List DirEntry → Bool
  | [] => true
  | e :: rest => entryMarked e && entriesMarked rest
end

mutual
/-- Every method file reachable from this entry declares only URL-parameter
keys available on its path: keys of the `urlParams` schema are among the
URL-parameter directory names in scope at the file's node. -/
def entryParamsOk : List String → DirEntry → Bool
  | scope, DirEntry.dir dname contents =>
      match matchUrlParamDir dname with
      | some inner => entriesParamsOk (inner :: scope) contents
      | none => entriesParamsOk scope contents
  | scope, DirEntry.file fname ep =>
      match parseMethodFile fname with
      | none => true
      | some _ =>
          match ep.endpointDefinition.urlParams with
          | none => true
          | some schema => schema.keys.all (fun k => scope.contains k)

/-- `entryParamsOk` over a list of entries. -/
def entriesParamsOk : List String → List DirEntry → Bool
  | _, [] => true
  | scope, e :: rest => entryParamsOk scope e && entriesParamsOk scope rest
end

mutual
/-- Processing one entry succeeds exactly when every reachable method file is
marked and declares only in-scope URL-parameter keys. -/
theorem buildOne_isOk (scope : List String) (relPath : String) (e : DirEntry) :
    (buildOne scope relPath e).isOk = (entryMarked e && entryParamsOk scope e) := by
  match e with
  | DirEntry.dir dname contents =>
      cases hdir : matchUrlParamDir dname with
      | some inner =>
          have ih := buildEntries_isOk (inner :: scope) (joinPath relPath dname) contents
          simp only [buildOne, entryMarked, entryParamsOk, hdir]
          cases h1 : buildEntries (inner :: scope) (joinPath relPath dname) contents with
          | error msg =>
              rw [h1] at ih
              rw [← ih]
              simp [Except.isOk, Except.toBool]
          | ok pr =>
              rw [h1] at ih
              obtain ⟨subs, res⟩ := pr
              rw [← ih]
              simp [Except.isOk, Except.toBool]
      | none =>
          have ih := buildEntries_isOk scope (joinPath relPath dname) contents
          simp only [buildOne, entryMarked, entryParamsOk, hdir]
          cases h1 : buildEntries scope (joinPath relPath dname) contents with
          | error msg =>
              rw [h1] at ih
              rw [← ih]
              simp [Except.isOk, Except.toBool]
          | ok pr =>
              rw [h1] at ih
              obtain ⟨subs, res⟩ := pr
              rw [← ih]
              simp [Except.isOk, Except.toBool]
  | DirEntry.file fname ep =>
      simp only [buildOne, entryMarked, entryParamsOk]
      cases hm : parseMethodFile fname with
      | none => simp [Except.isOk, Except.toBool]
      | some m =>
          simp only [hm]
          cases hb : ep.builtByKint with
          | false => simp [hb, Except.isOk, Except.toBool]
          | true =>
              simp only [hb, Bool.true_and]
              cases hu : ep.endpointDefinition.urlParams with
              | none => simp [hu, Except.isOk, Except.toBool]
              | some schema =>
                  simp only [hu]
                  have hall := firstMissing_isNone scope schema.keys
                  cases hf : firstMissing scope schema.keys with
                  | some missing =>
                      rw [hf] at hall
                      simp only [Option.isNone_some] at hall
                      simp only [Except.isOk, Except.toBool]
                      exact hall
                  | none =>
                      rw [hf] at hall
                      simp only [Option.isNone_none] at hall
                      simp only [Except.isOk, Except.toBool]
                      exact hall

/-- Populating a node from a list of entries succeeds exactly when every
reachable method file is marked and declares only in-scope keys. -/
theorem buildEntries_isOk (scope : List String) (relPath : String) (es : List DirEntry) :
    (buildEntries scope relPath es).isOk
      = (entriesMarked es && entriesParamsOk scope es) := by
  match es with
  | [] => simp [buildEntries, entriesMarked, entriesParamsOk, Except.isOk, Except.toBool]
  | e :: rest =>
      have ih1 := buildOne_isOk scope relPath e
      have ih2 := buildEntries_isOk scope relPath rest
      simp only [buildEntries, entriesMarked, entriesParamsOk]
      rw [bool_and_reassoc]
      cases h1 : buildOne scope relPath e with
      | error msg =>
          rw [h1] at ih1
          simp only [Except.isOk, Except.toBool] at ih1 ⊢
          rw [← ih1, Bool.false_and]
      | ok item =>
          rw [h1] at ih1
          cases h2 : buildEntries scope relPath rest with
          | error msg =>
              rw [h2] at ih2
              simp only [Except.isOk, Except.toBool] at ih1 ih2 ⊢
              rw [← ih1, ← ih2, Bool.true_and]
          | ok pr =>
              rw [h2] at ih2
              obtain ⟨subs, res⟩ := pr
              simp only [Except.isOk, Except.toBool] at ih1 ih2 ⊢
              rw [← ih1, ← ih2, Bool.true_and]
              cases item <;> rfl
end

/-- A pass-through URL-parameter schema declaring the given keys. -/
def urlParamsSchema (keys : List String) : Schema :=
  { keys := keys, parse := fun v => ParseResult.success v }

/-- An endpoint declaring URL-parameter keys `id` and `extra`. -/
def epIdExtra : Endpoint :=
  { builtByKint := true,
    endpointDefinition :=
      { requestBody := none, queryParams := none,
        urlParams := some (urlParamsSchema ["id", "extra"]) },
    handler := fun _req _ctx => Val.null }

/-- An endpoint declaring only the URL-parameter key `id`. -/
def epIdOnly : Endpoint :=
  { builtByKint := true,
    endpointDefinition :=
      { requestBody := none, queryParams := none,
        urlParams := some (urlParamsSchema ["id"]) },
    handler := fun _req _ctx => Val.null }

/-- An endpoint module lacking the `builtByKint` marker. -/
def epUnmarked : Endpoint :=
  { builtByKint := false,
    endpointDefinition := { requestBody := none, queryParams := none, urlParams := none },
    handler := fun _req _ctx => Val.null }

/-- The directory `/users/[id]/POST` whose endpoint declares `id` and `extra`. -/
def treeBadParam : List DirEntry :=
  [DirEntry.dir "users" [DirEntry.dir "[id]" [DirEntry.file "POST.ts" epIdExtra]]]

/-- The directory `/users/[id]/POST` whose endpoint declares only `id`. -/
def treeGoodParam : List DirEntry :=
  [DirEntry.dir "users" [DirEntry.dir "[id]" [DirEntry.file "POST.ts" epIdOnly]]]

/-- A directory with a method file whose module is not a Kint endpoint. -/
def treeUnmarked : List DirEntry :=
  [DirEntry.file "POST.ts" epUnmarked]

/-- Claim C2: during route-tree construction every key declared in a method
file's `urlParams` schema must be among the URL-parameter names on the path
from the file's node to the root.  For marked endpoints, construction
succeeds exactly when every declared key is in scope; on the spec's
examples, `/users/[id]/POST` declaring `id, extra` fails with an error
naming the path and the key `extra`, and the same tree declaring only `id`
builds successfully. -/
theorem urlparam_keys_checked_against_ancestors :
    (∀ (scope : List String) (relPath : String) (es : List DirEntry),
        entriesMarked es = true →
        ((buildEntries scope relPath es).isOk = true ↔ entriesParamsOk scope es = true))
      ∧ fromDirectory treeBadParam
          = Except.error ("Endpoint at /users/[id]/POST.ts defines a URL parameter"
              ++ " in it\'s schema (extra) that does not exist in the route path.")
      ∧ (fromDirectory treeGoodParam).isOk = true := by
  refine ⟨?_, ?_, ?_⟩
  · intro scope relPath es hm
    rw [buildEntries_isOk, hm, Bool.true_and]
  · rfl
  · rfl

theorem urlparam_keys_checked_against_ancestors_witness :
    (entriesMarked treeBadParam = true)
      ∧ ((buildEntries [] "./" treeBadParam).isOk = true
          ↔ entriesParamsOk [] treeBadParam = true)
      ∧ (entriesParamsOk [] treeBadParam = false) :=
  ⟨by decide,
    urlparam_keys_checked_against_ancestors.1 [] "./" treeBadParam (by decide),
    by decide⟩

/-- Claim C6: a method file whose loaded module's default export does not
carry the `builtByKint` marker makes the entire build fail — the traversal
returns an error and no tree — and on a concrete unmarked module the error
is the source's message naming the offending path. -/
theorem unmarked_endpoint_aborts_build :
    (∀ (scope : List String) (relPath : String) (es : List DirEntry),
        entriesMarked es = false → (buildEntries scope relPath es).isOk = false)
      ∧ fromDirectory treeUnmarked
          = Except.error "Endpoint at route POST.ts is not a Kint endpoint" := by
  refine ⟨?_, ?_⟩
  · intro scope relPath es hm
    rw [buildEntries_isOk, hm, Bool.false_and]
  · rfl

theorem unmarked_endpoint_aborts_build_witness :
    (entriesMarked treeUnmarked = false)
      ∧ (buildEntries [] "./" treeUnmarked).isOk = false :=
  ⟨by decide, unmarked_endpoint_aborts_build.1 [] "./" treeUnmarked (by decide)⟩

/-- A JSON-like configuration value: a leaf or an object, an object being an
ordered list of string-keyed fields (JavaScript objects have unique keys;
see `jwf`). -/
inductive JVal where
  | str (s : String)
  | obj (entries : List (String × JVal))

/-- Field read on a configuration object. -/
def lookupJ (k : String) : List (String × JVal) → Option JVal
  | [] => none
  | (k2, v) :: rest =>
      match k2 == k with
      | true => some v
      | false => lookupJ k rest

/-- Whether a configuration object has a field named `k`. -/
def hasKeyJ (k : String) (l : List (String × JVal)) : Bool :=
  l.any (fun q => q.1 == k)

/-- The fields of the default that the override does not mention. -/
def missingEntries (ds os : List (String × JVal)) : List (String × JVal) :=
  ds.filter (fun p => !(hasKeyJ p.1 os))

mutual
/-- Modelled from the spec: `mergeDefaultWithMissingItems`
(src/utils/mergeDefaultWithMissingItems.ts is not under src/) deep-merges
"endpoint-supplied values onto the default, filling only keys absent from
the endpoint's override (never overwriting an explicit endpoint value)":
fields named by the override keep the override's value (recursively merged
when both sides hold objects), and fields only the default names are
appended. -/
def mergeVal : JVal → JVal → JVal
  | JVal.obj ds, JVal.obj os => JVal.obj (mergeEntries ds os ++ missingEntries ds os)
  | _, o => o

/-- The override's fields after merging each against the default's field of
the same name, in override order. -/
def mergeEntries (ds : List (String × JVal)) : List (String × JVal) → List (String × JVal)
  | [] => []
  | (k, ov) :: rest =>
      (k, match lookupJ k ds with
          | some dv => mergeVal dv ov
          | none => ov) :: mergeEntries ds rest
end

/-- One override field merged against the default's field of the same name. -/
def mergeEntry (ds : List (String × JVal)) (k : String) (ov : JVal) : JVal :=
  match lookupJ k ds with
  | some dv => mergeVal dv ov
  | none => ov

/-- Keys of a configuration object are pairwise distinct. -/
def keysNodupJ : List (String × JVal) → Bool
  | [] => true
  | (k, _) :: rest => !(hasKeyJ k rest) && keysNodupJ rest

mutual
/-- A well-formed JavaScript-object value: every object level has pairwise
distinct keys. -/
def jwf : JVal → Bool
  | JVal.str _ => true
  | JVal.obj l => keysNodupJ l && jwfEntries l

/-- `jwf` on every field value of an object. -/
def jwfEntries : List (String × JVal) → Bool
  | [] => true
  | (_, v) :: rest => jwf v && jwfEntries rest
end

/-- Structural induction for `JVal` through the nested entry lists. -/
theorem jval_ind (P : JVal → Prop) (hstr : ∀ s, P (JVal.str s))
    (hobj : ∀ l, (∀ p ∈ l, P p.2) → P (JVal.obj l)) : ∀ v, P v
  | JVal.str s => hstr s
  | JVal.obj l => hobj l (fun p hp => jval_ind P hstr hobj p.2)
termination_by v => sizeOf v
decreasing_by
  have h1 := List.sizeOf_lt_of_mem hp
  obtain ⟨a, b⟩ := p
  simp at h1 ⊢
  omega

/-- `mergeEntries` is the map of `mergeEntry` over the override's fields. -/
theorem mergeEntries_eq_map (ds os : List (String × JVal)) :
    mergeEntries ds os = os.map (fun p => (p.1, mergeEntry ds p.1 p.2)) := by
  induction os with
  | nil => rfl
  | cons hd rest ih =>
      obtain ⟨k, ov⟩ := hd
      simp only [mergeEntries, mergeEntry, List.map_cons, ih]

/-- Mapping an identity-on-members function over a list is the identity. -/
theorem list_map_id_of {α : Type} (l : List α) (f : α → α) (h : ∀ p ∈ l, f p = p) :
    l.map f = l := by
  induction l with
  | nil => rfl
  | cons hd rest ih =>
      simp only [List.map_cons, h hd (List.mem_cons_self hd rest)]
      rw [ih (fun p hp => h p (List.mem_cons_of_mem hd hp))]

/-- Merging preserves the override's key set. -/
theorem hasKeyJ_mergeEntries (ds os : List (String × JVal)) (k : String) :
    hasKeyJ k (mergeEntries ds os) = hasKeyJ k os := by
  rw [mergeEntries_eq_map]
  simp only [hasKeyJ, List.any_map]
  rfl

/-- Looking up a present key under distinct keys yields the member's value. -/
theorem lookupJ_eq_of_mem_nodup (l : List (String × JVal)) (k : String) (v : JVal)
    (hnd : keysNodupJ l = true) (hmem : (k, v) ∈ l) : lookupJ k l = some v := by
  induction l with
  | nil => cases hmem
  | cons hd rest ih =>
      obtain ⟨k2, w⟩ := hd
      simp only [keysNodupJ, Bool.and_eq_true] at hnd
      rcases List.mem_cons.mp hmem with heq | hmem2
      · injection heq with h1 h2
        subst h1
        subst h2
        simp [lookupJ]
      · have hne : (k2 == k) = false := by
          have hany := hnd.1
          simp only [Bool.not_eq_true', hasKeyJ, List.any_eq_false] at hany
          have h2 := hany (k, v) hmem2
          simp only [beq_iff_eq] at h2
          rw [beq_eq_false_iff_ne]
          exact fun hc => h2 hc.symm
        simp only [lookupJ, hne]
        exact ih hnd.2 hmem2

/-- A successful lookup comes from a member of the object. -/
theorem lookupJ_mem (l : List (String × JVal)) (k : String) (v : JVal)
    (h : lookupJ k l = some v) : (k, v) ∈ l := by
  induction l with
  | nil => simp [lookupJ] at h
  | cons hd rest ih =>
      obtain ⟨k2, w⟩ := hd
      cases hk : (k2 == k) with
      | true =>
          rw [lookupJ, hk] at h
          injection h with h2
          subst h2
          have h3 : k2 = k := by simpa using hk
          subst h3
          exact List.mem_cons_self _ _
      | false =>
          rw [lookupJ, hk] at h
          exact List.mem_cons_of_mem _ (ih h)

/-- Every field value of a well-formed object list is well-formed. -/
theorem jwfEntries_mem (l : List (String × JVal)) (p : String × JVal)
    (h : jwfEntries l = true) (hp : p ∈ l) : jwf p.2 = true := by
  induction l with
  | nil => cases hp
  | cons hd rest ih =>
      obtain ⟨k2, w⟩ := hd
      simp only [jwfEntries, Bool.and_eq_true] at h
      rcases List.mem_cons.mp hp with heq | hmem2
      · subst heq
        exact h.1
      · exact ih h.2 hmem2

/-- Merging a well-formed value with itself is the identity. -/
theorem mergeVal_self : ∀ v : JVal, jwf v = true → mergeVal v v = v := by
  refine jval_ind (fun v => jwf v = true → mergeVal v v = v) ?_ ?_
  · intro s _
    rfl
  · intro l ih h
    simp only [jwf, Bool.and_eq_true] at h
    have hmiss : missingEntries l l = [] := by
      apply List.filter_eq_nil_iff.mpr
      intro p hp
      simp only [Bool.not_eq_true', Bool.not_eq_false]
      exact List.any_eq_true.mpr ⟨p, hp, by simp⟩
    have hent : mergeEntries l l = l := by
      rw [mergeEntries_eq_map]
      apply list_map_id_of
      intro p hp
      have hl : lookupJ p.1 l = some p.2 := lookupJ_eq_of_mem_nodup l p.1 p.2 h.1 hp
      have hv : mergeEntry l p.1 p.2 = p.2 := by
        rw [mergeEntry, hl]
        exact ih p hp (jwfEntries_mem l p h.2 hp)
      rw [hv]
    rw [mergeVal, hent, hmiss, List.append_nil]

/-- Re-merging against the same default absorbs: the deep merge adds to an
already-merged configuration nothing new. -/
theorem merge_absorb : ∀ o d : JVal, jwf d = true →
    mergeVal d (mergeVal d o) = mergeVal d o := by
  refine jval_ind (fun o => ∀ d, jwf d = true → mergeVal d (mergeVal d o) = mergeVal d o) ?_ ?_
  · intro s d _
    cases d <;> rfl
  · intro os ih d hd
    cases d with
    | str s => rfl
    | obj ds =>
        simp only [jwf, Bool.and_eq_true] at hd
        have hinner : mergeVal (JVal.obj ds) (JVal.obj os)
            = JVal.obj (mergeEntries ds os ++ missingEntries ds os) := by
          rw [mergeVal]
        rw [hinner, mergeVal]
        have hkeys : ∀ p ∈ ds,
            hasKeyJ p.1 (mergeEntries ds os ++ missingEntries ds os) = true := by
          intro p hp
          rw [hasKeyJ, List.any_append]
          cases ho : hasKeyJ p.1 os with
          | true =>
              have hm : hasKeyJ p.1 (mergeEntries ds os) = true := by
                rw [hasKeyJ_mergeEntries]
                exact ho
              rw [hasKeyJ] at hm
              rw [hm, Bool.true_or]
          | false =>
              have hpmem : p ∈ missingEntries ds os := by
                rw [missingEntries, List.mem_filter]
                refine ⟨hp, ?_⟩
                rw [ho]
                rfl
              have hany : (missingEntries ds os).any (fun q => q.1 == p.1) = true :=
                List.any_eq_true.mpr ⟨p, hpmem, by simp⟩
              rw [hany, Bool.or_true]
        have hmiss2 : missingEntries ds (mergeEntries ds os ++ missingEntries ds os) = [] := by
          rw [missingEntries]
          apply List.filter_eq_nil_iff.mpr
          intro p hp
          simp only [Bool.not_eq_true', Bool.not_eq_false]
          exact hkeys p hp
        have hent2 : mergeEntries ds (mergeEntries ds os ++ missingEntries ds os)
            = mergeEntries ds os ++ missingEntries ds os := by
          rw [mergeEntries_eq_map]
          apply list_map_id_of
          intro p hp
          rcases List.mem_append.mp hp with hpme | hpmi
          · rw [mergeEntries_eq_map] at hpme
            rcases List.mem_map.mp hpme with ⟨q, hq, hfq⟩
            cases hl : lookupJ q.1 ds with
            | none =>
                subst hfq
                simp only [mergeEntry, hl]
            | some dv =>
                have hdv : jwf dv = true :=
                  jwfEntries_mem ds (q.1, dv) hd.2 (lookupJ_mem ds q.1 dv hl)
                subst hfq
                simp only [mergeEntry, hl]
                rw [ih q hq dv hdv]
          · have hpds : p ∈ ds := by
              rw [missingEntries] at hpmi
              exact (List.mem_filter.mp hpmi).1
            have hl : lookupJ p.1 ds = some p.2 :=
              lookupJ_eq_of_mem_nodup ds p.1 p.2 hd.1 hpds
            have hwp : jwf p.2 = true := jwfEntries_mem ds p hd.2 hpds
            show (p.1, mergeEntry ds p.1 p.2) = p
            simp only [mergeEntry, hl]
            rw [mergeVal_self p.2 hwp]
        rw [hent2, hmiss2, List.append_nil]

/-- Claim C8: the deep merge of an endpoint override onto the chain default
is idempotent with respect to re-merging: for every well-formed default
configuration and any override, `merge default (merge default override)`
equals `merge default override`, because the merge fills only keys absent
from the override and never overwrites an explicit override value. -/
theorem merged_config_idempotent (d o : JVal) (hd : jwf d = true) :
    mergeVal d (mergeVal d o) = mergeVal d o :=
  merge_absorb o d hd

/-- A concrete chain-wide default configuration. -/
def defaultConfigJ : JVal :=
  JVal.obj [("a", JVal.str "x"), ("b", JVal.obj [("c", JVal.str "y"), ("d", JVal.str "w")])]

/-- A concrete endpoint override configuration. -/
def overrideConfigJ : JVal :=
  JVal.obj [("b", JVal.obj [("c", JVal.str "z")]), ("e", JVal.str "v")]

theorem merged_config_idempotent_witness :
    (jwf defaultConfigJ = true)
      ∧ mergeVal defaultConfigJ (mergeVal defaultConfigJ overrideConfigJ)
          = mergeVal defaultConfigJ overrideConfigJ :=
  ⟨by decide, merged_config_idempotent defaultConfigJ overrideConfigJ (by decide)⟩
